import Mathlib

/-!
Shallow embedding of the `leesper/bytebuffer` Rust crate (`src/lib.rs`).

The Rust `Buffer` holds two cursors and a `Vec<u8>`.  Bytes are modelled as
`Nat` (values produced by the operations are always `< 256`); machine-integer
arithmetic is made explicit with `% 2^w`.  Every fallible operation returns
`Option` where `none` models a Rust panic (a failed `assert!`, an
out-of-bounds index, or an `unwrap` on invalid UTF-8).  `retrieve_as_string`
additionally returns the buffer state at exit: in Rust the method mutates
`self` through `&mut` *before* the `unwrap` that can panic, so the partially
mutated state is observable (e.g. across `catch_unwind`); the claims under
study are about exactly that ordering.

`ptr::copy_nonoverlapping` / `ptr::copy` (memmove) are modelled by
`listSetRange`, which overwrites a range of the list with a source list that
was read out beforehand - precisely the semantics of memmove.  `Vec::resize`
is `listResize` (truncate or pad with the fill byte).
-/

set_option maxRecDepth 40000

namespace ByteBuffer

/-- Rust: `vec.resize(n, v)` - truncates to `n` or pads with `v` up to `n`. -/
def listResize (l : List Nat) (n : Nat) (v : Nat) : List Nat :=
  if n ≤ l.length then l.take n else l ++ List.replicate (n - l.length) v

/-- Overwrite `src.length` elements of `l` starting at position `s` with `src`
(memmove/memcpy semantics; callers guarantee `s + src.length ≤ l.length`). -/
def listSetRange (l : List Nat) (s : Nat) (src : List Nat) : List Nat :=
  l.take s ++ (src ++ l.drop (s + src.length))

/-- Rust struct `Buffer { read_index, write_index, data: Vec<u8> }`. -/
structure Buffer where
  read_index : Nat
  write_index : Nat
  data : List Nat
deriving DecidableEq

/-- `pub const PREPEND: usize = 8;` -/
def PREPEND : Nat := 8

/-- `pub const INITIAL: usize = 1024;` -/
def INITIAL : Nat := 1024

/-- The documented data-model invariant
`0 <= read_index <= write_index <= storage.len()` (the `0 <=` part is
automatic for `Nat`). -/
def Inv (b : Buffer) : Prop :=
  b.read_index ≤ b.write_index ∧ b.write_index ≤ b.data.length

instance (b : Buffer) : Decidable (Inv b) := by unfold Inv; infer_instance

/-- `Buffer::new(initial)` -/
def Buffer.new (initial : Option Nat) : Buffer :=
  { read_index := PREPEND
    write_index := PREPEND
    data := List.replicate (PREPEND + initial.getD INITIAL) 0 }

/-- `readable_bytes()` -/
def readable_bytes (b : Buffer) : Nat := b.write_index - b.read_index

/-- `writable_bytes()` -/
def writable_bytes (b : Buffer) : Nat := b.data.length - b.write_index

/-- `prependable_bytes()` -/
def prependable_bytes (b : Buffer) : Nat := b.read_index

/-- The bytes of the readable region `[read_index, write_index)` - the
"readable content" the specification talks about (derived observer, not a
source function). -/
def readableSlice (b : Buffer) : List Nat :=
  (b.data.drop b.read_index).take (readable_bytes b)

/-- `swap(&mut self, other)` - `mem::swap` of the two whole structs. -/
def swap (a b : Buffer) : Buffer × Buffer := (b, a)

/-- The buffer after the compaction memmove of `make_space`: the readable
bytes (snapshotted, memmove semantics) are moved down to offset `PREPEND` and
the cursors are reset around them. -/
def compacted (b : Buffer) : Buffer :=
  { read_index := PREPEND
    write_index := PREPEND + readable_bytes b
    data := listSetRange b.data PREPEND
      ((b.data.drop b.read_index).take (readable_bytes b)) }

/-- `make_space(&mut self, len)`.  Growth branch: `data.resize(write_index +
len, 0)`.  Compaction branch: `assert!(PREPEND < read_index)`, memmove the
readable bytes down to offset `PREPEND`, reset the cursors.  The two indexing
expressions `&self.data[self.read_index]` and `&mut self.data[PREPEND]` are
bounds-checked in Rust, so they are modelled as explicit guards; the closing
`assert!(readable == self.readable_bytes())` is kept as a guard as well. -/
def make_space (b : Buffer) (len : Nat) : Option Buffer :=
  if writable_bytes b + prependable_bytes b < PREPEND + len then
    some { b with data := listResize b.data (b.write_index + len) 0 }
  else if PREPEND < b.read_index then
    if b.read_index < b.data.length ∧ PREPEND < b.data.length then
      if readable_bytes b = readable_bytes (compacted b) then some (compacted b)
      else none
    else none
  else none

/-- `ensure_writable_bytes(&mut self, len)` with its closing
`assert!(self.writable_bytes() >= len)`. -/
def ensure_writable_bytes (b : Buffer) (len : Nat) : Option Buffer :=
  (if writable_bytes b < len then make_space b len else some b).bind
    fun b1 => if len ≤ writable_bytes b1 then some b1 else none

/-- `has_written(&mut self, len)`: `assert!(len <= writable_bytes())`, then
`write_index += len`. -/
def has_written (b : Buffer) (len : Nat) : Option Buffer :=
  if len ≤ writable_bytes b then
    some { b with write_index := b.write_index + len }
  else none

/-- `unwrite(&mut self, len)`: `assert!(len <= readable_bytes())`, then
`write_index -= len`. -/
def unwrite (b : Buffer) (len : Nat) : Option Buffer :=
  if len ≤ readable_bytes b then
    some { b with write_index := b.write_index - len }
  else none

/-- `append_bytes(&mut self, bytes)`: `ensure_writable_bytes(bytes.len())`,
then `copy_nonoverlapping(&bytes[0], self.begin_write(), bytes.len())`, then
`has_written(bytes.len())`.  `&bytes[0]` is evaluated first and panics on an
empty slice; `begin_write()` indexes `data[write_index]`. -/
def append_bytes (b : Buffer) (bytes : List Nat) : Option Buffer :=
  (ensure_writable_bytes b bytes.length).bind fun b1 =>
    if bytes.isEmpty then none
    else if b1.write_index < b1.data.length then
      has_written { b1 with data := listSetRange b1.data b1.write_index bytes } bytes.length
    else none

/-- A Rust `String` is its UTF-8 byte content; `append_string` appends
`str.as_bytes()`. -/
def RStr : Type := List Nat

instance : DecidableEq RStr := by unfold RStr; infer_instance

/-- `append_string(&mut self, str)` = `append_bytes(str.as_bytes())`. -/
def append_string (b : Buffer) (s : RStr) : Option Buffer :=
  append_bytes b s

/-- Big-endian bytes of an unsigned value, fixed width `w` (least significant
byte last). -/
def natToBytesBE : Nat → Nat → List Nat
  | 0, _ => []
  | w + 1, v => natToBytesBE w (v / 256) ++ [v % 256]

/-- Big-endian read-back of a byte list. -/
def bytesToNatBE (l : List Nat) : Nat :=
  l.foldl (fun acc b => acc * 256 + b) 0

/-- Rust `x.to_be()` + `transmute::<iN, [u8; w]>`: the big-endian bytes of the
two's-complement bit pattern of `x`, i.e. of `x mod 2^(8*w)`. -/
def intToBytesBE (w : Nat) (x : Int) : List Nat :=
  natToBytesBE w (x % ((256 : Int) ^ w)).toNat

/-- Rust `transmute::<[u8; w], iN>` of big-endian bytes + `iN::from_be`: the
signed (two's-complement) value of the big-endian byte list. -/
def bytesToIntBE (w : Nat) (l : List Nat) : Int :=
  if 2 * bytesToNatBE l < 256 ^ w then (bytesToNatBE l : Int)
  else (bytesToNatBE l : Int) - (256 : Int) ^ w

/-- `append_int64` / `append_int32` / `append_int16` / `append_int8`:
`to_be` + `transmute` + `append_bytes`. -/
def append_int64 (b : Buffer) (x : Int) : Option Buffer :=
  append_bytes b (intToBytesBE 8 x)

def append_int32 (b : Buffer) (x : Int) : Option Buffer :=
  append_bytes b (intToBytesBE 4 x)

def append_int16 (b : Buffer) (x : Int) : Option Buffer :=
  append_bytes b (intToBytesBE 2 x)

def append_int8 (b : Buffer) (x : Int) : Option Buffer :=
  append_bytes b (intToBytesBE 1 x)

/-- Common body of `peek_int{8,16,32,64}`: `assert!(readable_bytes() >= w)`,
`peek()` (= `&data[read_index]`, bounds-checked), copy `w` bytes, decode
big-endian. -/
def peekIntW (b : Buffer) (w : Nat) : Option Int :=
  if w ≤ readable_bytes b then
    if b.read_index < b.data.length then
      some (bytesToIntBE w ((b.data.drop b.read_index).take w))
    else none
  else none

def peek_int64 (b : Buffer) : Option Int := peekIntW b 8
def peek_int32 (b : Buffer) : Option Int := peekIntW b 4
def peek_int16 (b : Buffer) : Option Int := peekIntW b 2
def peek_int8 (b : Buffer) : Option Int := peekIntW b 1

/-- `retrieve_all()` - unconditionally resets both cursors to `PREPEND`. -/
def retrieve_all (b : Buffer) : Buffer :=
  { b with read_index := PREPEND, write_index := PREPEND }

/-- `retrieve(&mut self, len)`: `assert!(len <= readable_bytes())`; advance
`read_index` if `len < readable_bytes()`, else `retrieve_all()`. -/
def retrieve (b : Buffer) (len : Nat) : Option Buffer :=
  if len ≤ readable_bytes b then
    if len < readable_bytes b then
      some { b with read_index := b.read_index + len }
    else some (retrieve_all b)
  else none

def retrieve_int64 (b : Buffer) : Option Buffer := retrieve b 8
def retrieve_int32 (b : Buffer) : Option Buffer := retrieve b 4
def retrieve_int16 (b : Buffer) : Option Buffer := retrieve b 2
def retrieve_int8 (b : Buffer) : Option Buffer := retrieve b 1

/-- `retrieve_until(&mut self, end)`. -/
def retrieve_until (b : Buffer) (e : Nat) : Option Buffer :=
  if b.read_index ≤ e ∧ e ≤ b.write_index then
    retrieve b (e - b.read_index)
  else none

/-- `read_int64` etc.: peek, then retrieve the width. -/
def read_int64 (b : Buffer) : Option (Int × Buffer) :=
  (peek_int64 b).bind fun v => (retrieve_int64 b).map fun b1 => (v, b1)

def read_int32 (b : Buffer) : Option (Int × Buffer) :=
  (peek_int32 b).bind fun v => (retrieve_int32 b).map fun b1 => (v, b1)

def read_int16 (b : Buffer) : Option (Int × Buffer) :=
  (peek_int16 b).bind fun v => (retrieve_int16 b).map fun b1 => (v, b1)

def read_int8 (b : Buffer) : Option (Int × Buffer) :=
  (peek_int8 b).bind fun v => (retrieve_int8 b).map fun b1 => (v, b1)

/-- `prepend_bytes(&mut self, bytes)`: `assert!(bytes.len() <=
prependable_bytes())`, `read_index -= bytes.len()`, then copy with `&bytes[0]`
(panics on an empty slice) into `&mut data[read_index]` (bounds-checked). -/
def prepend_bytes (b : Buffer) (bytes : List Nat) : Option Buffer :=
  if bytes.length ≤ prependable_bytes b then
    let b1 : Buffer := { b with read_index := b.read_index - bytes.length }
    if bytes.isEmpty then none
    else if b1.read_index < b1.data.length then
      some { b1 with data := listSetRange b1.data b1.read_index bytes }
    else none
  else none

def prepend_int64 (b : Buffer) (x : Int) : Option Buffer :=
  prepend_bytes b (intToBytesBE 8 x)

def prepend_int32 (b : Buffer) (x : Int) : Option Buffer :=
  prepend_bytes b (intToBytesBE 4 x)

def prepend_int16 (b : Buffer) (x : Int) : Option Buffer :=
  prepend_bytes b (intToBytesBE 2 x)

def prepend_int8 (b : Buffer) (x : Int) : Option Buffer :=
  prepend_bytes b (intToBytesBE 1 x)

/-- Continuation byte `0x80..=0xBF`. -/
def contByte (c : Nat) : Bool := decide (128 ≤ c ∧ c ≤ 191)

/-- Second-byte constraint for a 3-byte lead (`0xE0` excludes overlongs,
`0xED` excludes surrogates). -/
def secondByteE (b c : Nat) : Bool :=
  if b = 224 then decide (160 ≤ c ∧ c ≤ 191)
  else if b = 237 then decide (128 ≤ c ∧ c ≤ 159)
  else contByte c

/-- Second-byte constraint for a 4-byte lead (`0xF0` excludes overlongs,
`0xF4` caps at `U+10FFFF`). -/
def secondByteF (b c : Nat) : Bool :=
  if b = 240 then decide (144 ≤ c ∧ c ≤ 191)
  else if b = 244 then decide (128 ≤ c ∧ c ≤ 143)
  else contByte c

/-- UTF-8 validity of a byte sequence - the check performed by Rust's
`String::from_utf8`. -/
def isValidUtf8 : List Nat → Bool
  | [] => true
  | b :: t =>
    if b ≤ 127 then isValidUtf8 t
    else if 194 ≤ b ∧ b ≤ 223 then
      match t with
      | c1 :: t1 => contByte c1 && isValidUtf8 t1
      | [] => false
    else if 224 ≤ b ∧ b ≤ 239 then
      match t with
      | c1 :: c2 :: t2 => secondByteE b c1 && contByte c2 && isValidUtf8 t2
      | _ => false
    else if 240 ≤ b ∧ b ≤ 244 then
      match t with
      | c1 :: c2 :: c3 :: t3 =>
          secondByteF b c1 && contByte c2 && contByte c3 && isValidUtf8 t3
      | _ => false
    else false

/-- `retrieve_as_string(&mut self, len)`: `assert!(len <= readable_bytes())`;
`vec![0u8; len]` then `&mut bytes[0]` (panics when `len == 0`); copy `len`
bytes from `peek()` (= `&data[read_index]`, bounds-checked); `retrieve(len)`;
finally `String::from_utf8(bytes).unwrap()`.  The `retrieve` happens BEFORE
the decode, so the returned exit state has the cursor already advanced when
the `unwrap` panics.  Result: `(decoded string or none-for-panic, buffer state
at exit - observable through the `&mut` receiver even on unwind)`. -/
def retrieve_as_string (b : Buffer) (len : Nat) : Option RStr × Buffer :=
  if len ≤ readable_bytes b then
    if len = 0 then (none, b)
    else if b.read_index < b.data.length then
      let bytes := (b.data.drop b.read_index).take len
      match retrieve b len with
      | some b1 => if isValidUtf8 bytes then (some bytes, b1) else (none, b1)
      | none => (none, b)
    else (none, b)
  else (none, b)

/-- `retrieve_all_as_string()` = `retrieve_as_string(readable_bytes())`. -/
def retrieve_all_as_string (b : Buffer) : Option RStr × Buffer :=
  retrieve_as_string b (readable_bytes b)

/-- `shrink(&mut self, reserve)`: build `other = Buffer::new(None)`, call
`other.ensure_writable_bytes(self.readable_bytes() + reserve)`, then
`other.append_string(&self.retrieve_all_as_string())`, then `self.swap(&mut
other)`.  The result is the final `other` (swapped into `self`); `none` when
any step panics. -/
def shrink (b : Buffer) (reserve : Nat) : Option Buffer :=
  (ensure_writable_bytes (Buffer.new none) (readable_bytes b + reserve)).bind
    fun o1 => (retrieve_all_as_string b).1.bind fun s => append_string o1 s

/-! ## Helper lemmas about the list primitives -/

theorem listResize_length (l : List Nat) (n v : Nat) : (listResize l n v).length = n := by
  unfold listResize
  split
  · rw [List.length_take]; omega
  · rw [List.length_append, List.length_replicate]; omega

theorem listSetRange_length (l src : List Nat) (s : Nat) (h : s + src.length ≤ l.length) :
    (listSetRange l s src).length = l.length := by
  unfold listSetRange
  rw [List.length_append, List.length_append, List.length_take, List.length_drop]
  omega

/-- Reading back the bytes just written by `listSetRange`, starting at an
earlier offset `r ≤ w`: the result is the untouched segment `[r, w)` followed
by the written bytes. -/
theorem drop_take_setRange (data src : List Nat) (w r : Nat)
    (hr : r ≤ w) (hw : w + src.length ≤ data.length) :
    ((listSetRange data w src).drop r).take (w + src.length - r) =
      (data.drop r).take (w - r) ++ src := by
  have hwl : w ≤ data.length := by omega
  have h1 : (data.take w).length = w := List.length_take_of_le hwl
  unfold listSetRange
  rw [List.drop_append_of_le_length (by rw [h1]; exact hr)]
  have h2 : ((data.take w).drop r).length = w - r := by
    rw [List.length_drop, h1]
  have h3 : w + src.length - r = ((data.take w).drop r).length + src.length := by
    rw [h2]; omega
  rw [h3, List.take_append, List.take_left' rfl, List.drop_take]

/-! ## Space-management lemmas -/

/-- Length of the snapshot of the readable region. -/
theorem readSnapshot_length (b : Buffer) (h : Inv b) :
    ((b.data.drop b.read_index).take (readable_bytes b)).length = readable_bytes b := by
  obtain ⟨h1, h2⟩ := h
  rw [List.length_take, List.length_drop]
  unfold readable_bytes
  omega

/-- Compaction preserves the storage length whenever the readable region fits
after the prepend margin. -/
theorem compacted_data_length (b : Buffer) (h : Inv b)
    (hfit : PREPEND + readable_bytes b ≤ b.data.length) :
    (compacted b).data.length = b.data.length := by
  show (listSetRange b.data PREPEND _).length = _
  rw [listSetRange_length]
  rw [readSnapshot_length b h]
  exact hfit

theorem make_space_inv (b : Buffer) (n : Nat) (h : Inv b) (b1 : Buffer)
    (he : make_space b n = some b1) : Inv b1 := by
  obtain ⟨h1, h2⟩ := h
  unfold make_space at he
  split at he
  · injection he with he
    subst he
    refine ⟨h1, ?_⟩
    show b.write_index ≤ (listResize b.data (b.write_index + n) 0).length
    rw [listResize_length]
    omega
  · rename_i hguard
    split at he
    · split at he
      · split at he
        · injection he with he
          subst he
          have hfit : PREPEND + readable_bytes b ≤ b.data.length := by
            unfold writable_bytes prependable_bytes readable_bytes PREPEND at *
            omega
          refine ⟨by show PREPEND ≤ PREPEND + readable_bytes b; omega, ?_⟩
          show PREPEND + readable_bytes b ≤ (compacted b).data.length
          rw [compacted_data_length b ⟨h1, h2⟩ hfit]
          exact hfit
        · exact absurd he (by simp)
      · exact absurd he (by simp)
    · exact absurd he (by simp)

/-- When `ensure_writable_bytes` returns, the requested room is available and
the invariant is preserved. -/
theorem ensure_inv (b : Buffer) (n : Nat) (h : Inv b) (b1 : Buffer)
    (he : ensure_writable_bytes b n = some b1) :
    n ≤ writable_bytes b1 ∧ Inv b1 := by
  unfold ensure_writable_bytes at he
  split at he
  · cases hms : make_space b n with
    | none => rw [hms] at he; exact absurd he (by simp)
    | some b2 =>
      rw [hms] at he
      rw [Option.some_bind] at he
      split at he
      · obtain rfl := Option.some.injEq .. ▸ he
        exact ⟨by assumption, make_space_inv b n h b2 hms⟩
      · exact absurd he (by simp)
  · rw [Option.some_bind] at he
    split at he
    · obtain rfl := Option.some.injEq .. ▸ he
      exact ⟨by assumption, h⟩
    · exact absurd he (by simp)

/-- `ensure_writable_bytes` is a no-op when enough room already exists. -/
theorem ensure_noop (b : Buffer) (n : Nat) (h : n ≤ writable_bytes b) :
    ensure_writable_bytes b n = some b := by
  unfold ensure_writable_bytes
  rw [if_neg (by omega), Option.some_bind, if_pos h]

/-- The growth branch of `make_space` through `ensure_writable_bytes`:
`data.resize(write_index + n, 0)`, cursors untouched. -/
theorem ensure_growth (b : Buffer) (n : Nat)
    (h1 : writable_bytes b < n)
    (h2 : writable_bytes b + prependable_bytes b < PREPEND + n) :
    ensure_writable_bytes b n =
      some { b with data := listResize b.data (b.write_index + n) 0 } := by
  unfold ensure_writable_bytes make_space
  rw [if_pos h1, if_pos h2, Option.some_bind, if_pos]
  show n ≤ (listResize b.data (b.write_index + n) 0).length - b.write_index
  rw [listResize_length]
  omega

/-! ## Claim C2 -/

/-- C2: for every buffer satisfying the data-model invariant and every `n`,
whenever `ensure_writable_bytes(n)` completes (Rust: returns rather than
panicking at an assertion or bounds check), `writable_bytes() >= n` holds
afterwards, and the invariant still holds. -/
theorem c2_ensure_writable_postcondition (b : Buffer) (n : Nat) (b1 : Buffer)
    (hInv : Inv b) (he : ensure_writable_bytes b n = some b1) :
    n ≤ writable_bytes b1 ∧ Inv b1 :=
  ensure_inv b n hInv b1 he

theorem c2_witness :
    Inv (Buffer.mk 8 8 (List.replicate 12 0)) ∧
    ensure_writable_bytes (Buffer.mk 8 8 (List.replicate 12 0)) 10 =
      some (Buffer.mk 8 8 (List.replicate 12 0 ++ List.replicate 6 0)) ∧
    (10 ≤ writable_bytes (Buffer.mk 8 8 (List.replicate 12 0 ++ List.replicate 6 0)) ∧
      Inv (Buffer.mk 8 8 (List.replicate 12 0 ++ List.replicate 6 0))) :=
  ⟨by decide, by decide,
    c2_ensure_writable_postcondition (Buffer.mk 8 8 (List.replicate 12 0)) 10
      (Buffer.mk 8 8 (List.replicate 12 0 ++ List.replicate 6 0))
      (by decide) (by decide)⟩

/-! ## Claim C4 -/

/-- C4: on the growth path (`writable_bytes() < n` and
`writable_bytes() + prependable_bytes() < PREPEND + n`),
`ensure_writable_bytes(n)` resizes the storage to exactly
`write_index + n` and leaves both cursors unchanged. -/
theorem c4_growth_exact (b : Buffer) (n : Nat)
    (h1 : writable_bytes b < n)
    (h2 : writable_bytes b + prependable_bytes b < PREPEND + n) :
    ∃ b1, ensure_writable_bytes b n = some b1 ∧
      b1.read_index = b.read_index ∧ b1.write_index = b.write_index ∧
      b1.data.length = b.write_index + n := by
  refine ⟨_, ensure_growth b n h1 h2, rfl, rfl, ?_⟩
  exact listResize_length _ _ _

theorem c4_witness :
    writable_bytes (Buffer.mk 8 8 (List.replicate 8 0)) < 1 ∧
    writable_bytes (Buffer.mk 8 8 (List.replicate 8 0)) +
      prependable_bytes (Buffer.mk 8 8 (List.replicate 8 0)) < PREPEND + 1 ∧
    ∃ b1, ensure_writable_bytes (Buffer.mk 8 8 (List.replicate 8 0)) 1 = some b1 ∧
      b1.read_index = 8 ∧ b1.write_index = 8 ∧ b1.data.length = 9 :=
  ⟨by decide, by decide, c4_growth_exact _ 1 (by decide) (by decide)⟩

/-! ## Claim C5 -/

/-- C5: `retrieve(n)` with `n <= readable_bytes()`: when `n <
readable_bytes()` it advances `read_index` by `n` leaving `write_index` and
the storage unchanged; when `n == readable_bytes()` it resets both cursors to
`PREPEND`, so `prependable_bytes() == PREPEND` afterwards. -/
theorem c5_retrieve_spec (b : Buffer) (n : Nat) (h : n ≤ readable_bytes b) :
    (n < readable_bytes b →
      retrieve b n = some { b with read_index := b.read_index + n }) ∧
    (n = readable_bytes b →
      retrieve b n = some { b with read_index := PREPEND, write_index := PREPEND } ∧
      prependable_bytes { b with read_index := PREPEND, write_index := PREPEND } =
        PREPEND) := by
  constructor
  · intro hlt
    unfold retrieve
    rw [if_pos h, if_pos hlt]
  · intro heq
    unfold retrieve retrieve_all
    rw [if_pos h, if_neg (by omega)]
    exact ⟨rfl, rfl⟩

theorem c5_witness :
    (2 ≤ readable_bytes (Buffer.mk 8 12 (List.replicate 16 0))) ∧
    ((2 < readable_bytes (Buffer.mk 8 12 (List.replicate 16 0)) →
      retrieve (Buffer.mk 8 12 (List.replicate 16 0)) 2 =
        some (Buffer.mk 10 12 (List.replicate 16 0))) ∧
    (2 = readable_bytes (Buffer.mk 8 12 (List.replicate 16 0)) →
      retrieve (Buffer.mk 8 12 (List.replicate 16 0)) 2 =
        some (Buffer.mk 8 8 (List.replicate 16 0)) ∧
      prependable_bytes (Buffer.mk 8 8 (List.replicate 16 0)) = PREPEND)) :=
  ⟨by decide, c5_retrieve_spec (Buffer.mk 8 12 (List.replicate 16 0)) 2 (by decide)⟩

/-! ## The big-endian integer codec -/

theorem natToBytesBE_length (w v : Nat) : (natToBytesBE w v).length = w := by
  induction w generalizing v with
  | zero => rfl
  | succ w ih => simp [natToBytesBE, ih]

theorem bytesToNatBE_append_one (l : List Nat) (b : Nat) :
    bytesToNatBE (l ++ [b]) = bytesToNatBE l * 256 + b := by
  unfold bytesToNatBE
  rw [List.foldl_append]
  rfl

theorem bytesToNatBE_natToBytesBE (w v : Nat) :
    bytesToNatBE (natToBytesBE w v) = v % 256 ^ w := by
  induction w generalizing v with
  | zero => simp [natToBytesBE, bytesToNatBE, Nat.mod_one]
  | succ w ih =>
    rw [natToBytesBE, bytesToNatBE_append_one, ih, pow_succ', Nat.mod_mul]
    omega

/-- Round trip of the two's-complement big-endian codec for every
representable value (stated via `2*x` to avoid division: `-(256^w) <= 2*x <
256^w` is exactly `-(256^w/2) <= x < 256^w/2`). -/
theorem bytesToIntBE_intToBytesBE (w : Nat) (x : Int)
    (h1 : -((256 : Int) ^ w) ≤ 2 * x) (h2 : 2 * x < (256 : Int) ^ w) :
    bytesToIntBE w (intToBytesBE w x) = x := by
  have hm : (0 : Int) < (256 : Int) ^ w := by positivity
  have hnn : 0 ≤ x % (256 : Int) ^ w := Int.emod_nonneg x (ne_of_gt hm)
  have hlt : x % (256 : Int) ^ w < (256 : Int) ^ w := Int.emod_lt_of_pos x hm
  have hcast : ((256 ^ w : Nat) : Int) = (256 : Int) ^ w := by push_cast; ring
  have hxmod : x % (256 : Int) ^ w = x ∨ x % (256 : Int) ^ w = x + (256 : Int) ^ w := by
    by_cases hx : 0 ≤ x
    · left
      exact Int.emod_eq_of_lt hx (by omega)
    · right
      have hh : (x + (256 : Int) ^ w * 1) % ((256 : Int) ^ w) = x % (256 : Int) ^ w :=
        Int.add_mul_emod_self_left x ((256 : Int) ^ w) 1
      rw [mul_one] at hh
      rw [← hh]
      exact Int.emod_eq_of_lt (by omega) (by omega)
  unfold bytesToIntBE intToBytesBE
  rw [bytesToNatBE_natToBytesBE]
  have htI : ((x % (256 : Int) ^ w).toNat : Int) = x % (256 : Int) ^ w :=
    Int.toNat_of_nonneg hnn
  have hmodNat : (x % (256 : Int) ^ w).toNat % 256 ^ w = (x % (256 : Int) ^ w).toNat := by
    apply Nat.mod_eq_of_lt
    omega
  rw [hmodNat]
  rcases hxmod with hmod | hmod
  · rw [hmod] at htI
    split
    · omega
    · rename_i hcond
      omega
  · rw [hmod] at htI
    split
    · rename_i hcond
      omega
    · omega

/-! ## Appending to a drained buffer, and the integer round trip (C6) -/

/-- Unfolding `append_bytes` once `ensure_writable_bytes` is known to have
produced `b1` with enough room. -/
theorem append_bytes_of_ensure (b : Buffer) (l : List Nat) (b1 : Buffer)
    (he : ensure_writable_bytes b l.length = some b1)
    (hl : l ≠ []) (hInv1 : Inv b1) (hwa : l.length ≤ writable_bytes b1) :
    append_bytes b l =
      some (Buffer.mk b1.read_index (b1.write_index + l.length)
        (listSetRange b1.data b1.write_index l)) := by
  obtain ⟨h1, h2⟩ := hInv1
  have hk : 0 < l.length := List.length_pos.mpr hl
  have hwb : b1.write_index + l.length ≤ b1.data.length := by
    unfold writable_bytes at hwa
    omega
  unfold append_bytes
  rw [he, Option.some_bind, if_neg (by simp [List.isEmpty_iff, hl]),
    if_pos (by omega)]
  unfold has_written
  rw [if_pos]
  show l.length ≤ (listSetRange b1.data b1.write_index l).length - b1.write_index
  rw [listSetRange_length _ _ _ hwb]
  omega

/-- Appending `l ≠ []` to a drained buffer (cursors at `PREPEND`): the result
has cursors `PREPEND` / `PREPEND + l.length` and the readable region is
exactly `l`. -/
theorem append_drained (b : Buffer) (l : List Nat) (hInv : Inv b)
    (h0 : readable_bytes b = 0) (hr : b.read_index = PREPEND) (hl : l ≠ []) :
    ∃ d, append_bytes b l = some (Buffer.mk PREPEND (PREPEND + l.length) d) ∧
      (d.drop PREPEND).take l.length = l ∧ PREPEND + l.length ≤ d.length ∧
      d.length = max b.data.length (PREPEND + l.length) := by
  obtain ⟨hi1, hi2⟩ := hInv
  have hw : b.write_index = PREPEND := by
    unfold readable_bytes at h0
    omega
  have hk : 0 < l.length := List.length_pos.mpr hl
  by_cases hfits : l.length ≤ writable_bytes b
  · have hwb8 : PREPEND + l.length ≤ b.data.length := by
      unfold writable_bytes at hfits
      omega
    refine ⟨listSetRange b.data PREPEND l, ?_, ?_, ?_, ?_⟩
    · rw [append_bytes_of_ensure b l b (ensure_noop b l.length hfits) hl ⟨hi1, hi2⟩ hfits,
        hw, hr]
    · simpa using drop_take_setRange b.data l PREPEND PREPEND (le_refl _) hwb8
    · rw [listSetRange_length _ _ _ hwb8]
      omega
    · rw [listSetRange_length _ _ _ hwb8]
      omega
  · -- growth path: prependable = PREPEND, so compaction is impossible
    have hgrow : writable_bytes b + prependable_bytes b < PREPEND + l.length := by
      unfold prependable_bytes
      rw [hr]
      omega
    have hens := ensure_growth b l.length (by omega) hgrow
    have hInv1 : Inv { b with data := listResize b.data (b.write_index + l.length) 0 } := by
      refine ⟨hi1, ?_⟩
      show b.write_index ≤ (listResize b.data (b.write_index + l.length) 0).length
      rw [listResize_length]
      omega
    have hwa : l.length ≤
        writable_bytes { b with data := listResize b.data (b.write_index + l.length) 0 } := by
      show l.length ≤ (listResize b.data (b.write_index + l.length) 0).length - b.write_index
      rw [listResize_length]
      omega
    have hlen1 : (listResize b.data (PREPEND + l.length) 0).length = PREPEND + l.length := by
      rw [listResize_length]
    refine ⟨listSetRange (listResize b.data (PREPEND + l.length) 0) PREPEND l, ?_, ?_, ?_, ?_⟩
    · rw [append_bytes_of_ensure b l _ hens hl hInv1 hwa, hw, hr]
    · simpa using drop_take_setRange (listResize b.data (PREPEND + l.length) 0) l
        PREPEND PREPEND (le_refl _) (by rw [hlen1])
    · rw [listSetRange_length _ _ _ (by rw [hlen1]), hlen1]
    · rw [listSetRange_length _ _ _ (by rw [hlen1]), hlen1]
      have hsmall : b.data.length < PREPEND + l.length := by
        unfold writable_bytes at hfits
        omega
      omega

/-- One-width instance of the append/read round trip on a drained buffer. -/
theorem append_read_roundtrip (b : Buffer) (w : Nat) (v : Int)
    (hInv : Inv b) (h0 : readable_bytes b = 0) (hr : b.read_index = PREPEND)
    (hw : 0 < w) (h1 : -((256 : Int) ^ w) ≤ 2 * v) (h2 : 2 * v < (256 : Int) ^ w) :
    ∃ b1 b2, append_bytes b (intToBytesBE w v) = some b1 ∧
      peekIntW b1 w = some v ∧ retrieve b1 w = some b2 := by
  have hlen : (intToBytesBE w v).length = w := natToBytesBE_length w _
  have hne : intToBytesBE w v ≠ [] := by
    intro hc
    rw [hc] at hlen
    simp at hlen
    omega
  obtain ⟨d, happ, hslice, hdlen, _⟩ := append_drained b _ hInv h0 hr hne
  rw [hlen] at happ hslice hdlen
  have hreadable : readable_bytes (Buffer.mk PREPEND (PREPEND + w) d) = w := by
    show PREPEND + w - PREPEND = w
    omega
  refine ⟨Buffer.mk PREPEND (PREPEND + w) d,
    retrieve_all (Buffer.mk PREPEND (PREPEND + w) d), happ, ?_, ?_⟩
  · unfold peekIntW
    rw [hreadable, if_pos (le_refl w), if_pos (by show PREPEND < d.length; omega)]
    show some (bytesToIntBE w ((d.drop PREPEND).take w)) = some v
    rw [hslice, bytesToIntBE_intToBytesBE w v h1 h2]
  · unfold retrieve
    rw [hreadable, if_pos (le_refl w), if_neg (lt_irrefl w)]

/-- C6: for every width `W` in {8,16,32,64} and every representable signed
value `v` (two's complement, big-endian on the wire), appending `v` with
`append_intW` to a drained buffer and then calling `read_intW` returns exactly
`v`. -/
theorem c6_int_roundtrip (b : Buffer) (v : Int) (hInv : Inv b)
    (h0 : readable_bytes b = 0) (hr : b.read_index = PREPEND) :
    ((-(2 : Int) ^ 63 ≤ v ∧ v < 2 ^ 63) →
      ∃ b1 b2, append_int64 b v = some b1 ∧ read_int64 b1 = some (v, b2)) ∧
    ((-(2 : Int) ^ 31 ≤ v ∧ v < 2 ^ 31) →
      ∃ b1 b2, append_int32 b v = some b1 ∧ read_int32 b1 = some (v, b2)) ∧
    ((-(2 : Int) ^ 15 ≤ v ∧ v < 2 ^ 15) →
      ∃ b1 b2, append_int16 b v = some b1 ∧ read_int16 b1 = some (v, b2)) ∧
    ((-(2 : Int) ^ 7 ≤ v ∧ v < 2 ^ 7) →
      ∃ b1 b2, append_int8 b v = some b1 ∧ read_int8 b1 = some (v, b2)) := by
  refine ⟨fun h => ?_, fun h => ?_, fun h => ?_, fun h => ?_⟩
  · obtain ⟨b1, b2, ha, hp, hrv⟩ := append_read_roundtrip b 8 v hInv h0 hr (by omega)
      (by obtain ⟨ha, hb⟩ := h; norm_num at ha hb ⊢; omega)
      (by obtain ⟨ha, hb⟩ := h; norm_num at ha hb ⊢; omega)
    refine ⟨b1, b2, ha, ?_⟩
    unfold read_int64 peek_int64 retrieve_int64
    rw [hp, Option.some_bind, hrv]
    rfl
  · obtain ⟨b1, b2, ha, hp, hrv⟩ := append_read_roundtrip b 4 v hInv h0 hr (by omega)
      (by obtain ⟨ha, hb⟩ := h; norm_num at ha hb ⊢; omega)
      (by obtain ⟨ha, hb⟩ := h; norm_num at ha hb ⊢; omega)
    refine ⟨b1, b2, ha, ?_⟩
    unfold read_int32 peek_int32 retrieve_int32
    rw [hp, Option.some_bind, hrv]
    rfl
  · obtain ⟨b1, b2, ha, hp, hrv⟩ := append_read_roundtrip b 2 v hInv h0 hr (by omega)
      (by obtain ⟨ha, hb⟩ := h; norm_num at ha hb ⊢; omega)
      (by obtain ⟨ha, hb⟩ := h; norm_num at ha hb ⊢; omega)
    refine ⟨b1, b2, ha, ?_⟩
    unfold read_int16 peek_int16 retrieve_int16
    rw [hp, Option.some_bind, hrv]
    rfl
  · obtain ⟨b1, b2, ha, hp, hrv⟩ := append_read_roundtrip b 1 v hInv h0 hr (by omega)
      (by obtain ⟨ha, hb⟩ := h; norm_num at ha hb ⊢; omega)
      (by obtain ⟨ha, hb⟩ := h; norm_num at ha hb ⊢; omega)
    refine ⟨b1, b2, ha, ?_⟩
    unfold read_int8 peek_int8 retrieve_int8
    rw [hp, Option.some_bind, hrv]
    rfl

theorem c6_witness :
    Inv (Buffer.new (some 0)) ∧ readable_bytes (Buffer.new (some 0)) = 0 ∧
    (Buffer.new (some 0)).read_index = PREPEND ∧
    (((-(2 : Int) ^ 63 ≤ -1 ∧ (-1 : Int) < 2 ^ 63) →
      ∃ b1 b2, append_int64 (Buffer.new (some 0)) (-1) = some b1 ∧
        read_int64 b1 = some (-1, b2)) ∧
    ((-(2 : Int) ^ 31 ≤ -1 ∧ (-1 : Int) < 2 ^ 31) →
      ∃ b1 b2, append_int32 (Buffer.new (some 0)) (-1) = some b1 ∧
        read_int32 b1 = some (-1, b2)) ∧
    ((-(2 : Int) ^ 15 ≤ -1 ∧ (-1 : Int) < 2 ^ 15) →
      ∃ b1 b2, append_int16 (Buffer.new (some 0)) (-1) = some b1 ∧
        read_int16 b1 = some (-1, b2)) ∧
    ((-(2 : Int) ^ 7 ≤ -1 ∧ (-1 : Int) < 2 ^ 7) →
      ∃ b1 b2, append_int8 (Buffer.new (some 0)) (-1) = some b1 ∧
        read_int8 b1 = some (-1, b2))) :=
  ⟨by decide, by decide, by decide,
    c6_int_roundtrip (Buffer.new (some 0)) (-1) (by decide) (by decide) (by decide)⟩

/-! ## Claim C1 -/

/-- C1 (failing run): every step below satisfies its stated precondition, the
invariant `read_index <= write_index <= storage.len()` holds before the final
call, and `retrieve_all()` (which has no precondition) then breaks it:
`Buffer::new(Some(2))`, `append_bytes(&[1,2])` (fits), `prepend_bytes(&[9;8])`
(8 <= prependable), `unwrite(10)` (10 <= readable), `make_space(3)` (grows -
here shrinks - storage to `write_index + 3 = 3`), then `retrieve_all()` sets
both cursors to `PREPEND = 8 > 3 = storage.len()`. -/
theorem c1_invariant_broken :
    ((((append_bytes (Buffer.new (some 2)) [1, 2]).bind fun b =>
        prepend_bytes b [9, 9, 9, 9, 9, 9, 9, 9]).bind fun b =>
        unwrite b 10).bind fun b =>
        make_space b 3) = some (Buffer.mk 0 0 [9, 9, 9]) ∧
    Inv (Buffer.mk 0 0 [9, 9, 9]) ∧
    ¬ Inv (retrieve_all (Buffer.mk 0 0 [9, 9, 9])) := by
  refine ⟨by decide, by decide, by decide⟩

/-! ## Claim C10 -/

/-- After `ensure_writable_bytes`, construction from `Buffer::new(None)`
always succeeds for any request (1024 spare bytes or pure growth). -/
theorem ensure_new_some (r : Nat) :
    ∃ o, ensure_writable_bytes (Buffer.new none) r = some o := by
  by_cases h : r ≤ writable_bytes (Buffer.new none)
  · exact ⟨_, ensure_noop _ r h⟩
  · refine ⟨_, ensure_growth _ r (by omega) ?_⟩
    have h1 : writable_bytes (Buffer.new none) = 1024 := rfl
    have h2 : prependable_bytes (Buffer.new none) = 8 := rfl
    unfold PREPEND
    omega

/-- C10: each zero-length byte operation panics (out-of-bounds index on an
empty slice) instead of being a no-op: `append_bytes(&[])` (hence
`append_string("")`), `prepend_bytes(&[])`, `retrieve_as_string(0)` (hence
`retrieve_all_as_string()` on a drained buffer, and `shrink` on a drained
buffer). -/
theorem c10_zero_length_aborts (b : Buffer) (reserve : Nat) :
    append_bytes b [] = none ∧
    append_string b ([] : RStr) = none ∧
    prepend_bytes b [] = none ∧
    (retrieve_as_string b 0).1 = none ∧
    (readable_bytes b = 0 → (retrieve_all_as_string b).1 = none) ∧
    (readable_bytes b = 0 → shrink b reserve = none) := by
  have happ : append_bytes b [] = none := by
    unfold append_bytes
    rw [show ([] : List Nat).length = 0 from rfl, ensure_noop b 0 (Nat.zero_le _)]
    simp
  have hras : (retrieve_as_string b 0).1 = none := by
    unfold retrieve_as_string
    rw [if_pos (Nat.zero_le _), if_pos rfl]
  refine ⟨happ, happ, ?_, hras, ?_, ?_⟩
  · unfold prepend_bytes
    rw [if_pos (by simp [Nat.zero_le])]
    simp
  · intro h0
    unfold retrieve_all_as_string
    rw [h0]
    exact hras
  · intro h0
    obtain ⟨o, ho⟩ := ensure_new_some (0 + reserve)
    unfold shrink
    rw [h0, ho, Option.some_bind]
    unfold retrieve_all_as_string
    rw [h0, hras]
    rfl

theorem c10_witness :
    (append_bytes (Buffer.new (some 4)) [] = none ∧
    append_string (Buffer.new (some 4)) ([] : RStr) = none ∧
    prepend_bytes (Buffer.new (some 4)) [] = none ∧
    (retrieve_as_string (Buffer.new (some 4)) 0).1 = none ∧
    (readable_bytes (Buffer.new (some 4)) = 0 →
      (retrieve_all_as_string (Buffer.new (some 4))).1 = none) ∧
    (readable_bytes (Buffer.new (some 4)) = 0 →
      shrink (Buffer.new (some 4)) 3 = none)) ∧
    readable_bytes (Buffer.new (some 4)) = 0 :=
  ⟨c10_zero_length_aborts (Buffer.new (some 4)) 3, by decide⟩

/-! ## Claim C7 -/

/-- C7 counterexample: the claim quantifies over every buffer and every
string.  (1) On a buffer already holding the readable byte `65` (`"A"`),
appending `[66]` (`"B"`) and then calling `retrieve_as_string(1)` yields
`"A"`, not the appended string.  (2) On a fresh buffer and the empty string
(`L = 0`), `append_string` panics on `&bytes[0]`, so nothing is yielded at
all. -/
theorem c7_counterexample :
    ((append_string (Buffer.mk 8 9 (List.replicate 8 0 ++ [65])) [66]).map
      (fun b1 => (retrieve_as_string b1 1).1)) = some (some [65]) ∧
    ([65] : List Nat) ≠ [66] ∧
    append_string (Buffer.new (some 1)) ([] : RStr) = none := by
  refine ⟨by decide, by decide, by decide⟩

/-- C7 (amended): for every buffer with no readable bytes and cursors at
`PREPEND` (fresh or fully drained) and every nonempty UTF-8 string `s` of
length `L`, `append_string(s)` followed by `retrieve_as_string(L)` yields the
original string `s`, and `readable_bytes()` returns to its pre-append value
(`0`). -/
theorem c7_string_roundtrip (b : Buffer) (s : RStr) (hInv : Inv b)
    (h0 : readable_bytes b = 0) (hr : b.read_index = PREPEND)
    (hs : s ≠ []) (hvalid : isValidUtf8 s = true) :
    ∃ b1 b2, append_string b s = some b1 ∧
      retrieve_as_string b1 s.length = (some s, b2) ∧
      readable_bytes b2 = readable_bytes b := by
  obtain ⟨d, happ, hslice, hdlen, _⟩ := append_drained b s hInv h0 hr hs
  have hk : 0 < s.length := List.length_pos.mpr hs
  have hreadable : readable_bytes (Buffer.mk PREPEND (PREPEND + s.length) d) = s.length := by
    show PREPEND + s.length - PREPEND = s.length
    omega
  have hret : retrieve (Buffer.mk PREPEND (PREPEND + s.length) d) s.length
      = some (retrieve_all (Buffer.mk PREPEND (PREPEND + s.length) d)) := by
    unfold retrieve
    rw [hreadable, if_pos (le_refl _), if_neg (lt_irrefl _)]
  refine ⟨Buffer.mk PREPEND (PREPEND + s.length) d,
    retrieve_all (Buffer.mk PREPEND (PREPEND + s.length) d), happ, ?_, ?_⟩
  · unfold retrieve_as_string
    rw [hreadable, if_pos (le_refl _), if_neg (by omega),
      if_pos (show PREPEND < d.length by omega), hret]
    show (if isValidUtf8 ((d.drop PREPEND).take s.length) then _ else _) = _
    rw [hslice, hvalid]
    simp
  · show PREPEND - PREPEND = readable_bytes b
    omega

theorem c7_witness :
    Inv (Buffer.new (some 0)) ∧ readable_bytes (Buffer.new (some 0)) = 0 ∧
    (Buffer.new (some 0)).read_index = PREPEND ∧
    ([104, 105] : RStr) ≠ [] ∧ isValidUtf8 [104, 105] = true ∧
    ∃ b1 b2, append_string (Buffer.new (some 0)) [104, 105] = some b1 ∧
      retrieve_as_string b1 ([104, 105] : RStr).length = (some [104, 105], b2) ∧
      readable_bytes b2 = readable_bytes (Buffer.new (some 0)) :=
  ⟨by decide, by decide, by decide, by decide, by decide,
    c7_string_roundtrip (Buffer.new (some 0)) [104, 105]
      (by decide) (by decide) (by decide) (by decide) (by decide)⟩

/-! ## Claim C8 -/

/-- C8 counterexample: on a buffer whose first readable byte is `0xFF`
(invalid UTF-8) followed by `65`, `retrieve_as_string(1)` aborts at the
`unwrap` (no decode-error value is returned to the caller), and the read
cursor at exit is `9`, not the pre-call `8`: the code runs `retrieve(len)`
BEFORE decoding, contradicting the claimed "decode happens before the cursor
is advanced". -/
theorem c8_counterexample :
    (retrieve_as_string (Buffer.mk 8 10 (List.replicate 8 0 ++ [255, 65])) 1).1 = none ∧
    (retrieve_as_string (Buffer.mk 8 10 (List.replicate 8 0 ++ [255, 65])) 1).2.read_index = 9 ∧
    (Buffer.mk 8 10 (List.replicate 8 0 ++ [255, 65])).read_index = 8 := by
  refine ⟨by decide, by decide, by decide⟩

/-- C8 (amended): when the first `n` readable bytes are not valid UTF-8
(`0 < n <= readable_bytes()`), `retrieve_as_string(n)` aborts via the panic of
`String::from_utf8(...).unwrap()` - no replacement string and no decode-error
value reaches the caller - but the decode runs only AFTER `retrieve(n)`, so at
the abort the read cursor has already advanced (to `read_index + n`, or to
`PREPEND` when `n` drained the buffer); the storage bytes themselves are
unchanged. -/
theorem c8_decode_failure (b : Buffer) (n : Nat) (hInv : Inv b)
    (hn : 0 < n) (hle : n ≤ readable_bytes b)
    (hbad : isValidUtf8 ((b.data.drop b.read_index).take n) = false) :
    (retrieve_as_string b n).1 = none ∧
    (retrieve_as_string b n).2.data = b.data ∧
    (retrieve_as_string b n).2.read_index =
      (if n < readable_bytes b then b.read_index + n else PREPEND) := by
  obtain ⟨h1, h2⟩ := hInv
  have hrd : b.read_index < b.data.length := by
    unfold readable_bytes at hle
    omega
  unfold retrieve_as_string
  rw [if_pos hle, if_neg (by omega), if_pos hrd]
  by_cases hc : n < readable_bytes b
  · have hret : retrieve b n = some { b with read_index := b.read_index + n } := by
      unfold retrieve
      rw [if_pos hle, if_pos hc]
    rw [hret, if_pos hc]
    simp [hbad]
  · have hret : retrieve b n = some (retrieve_all b) := by
      unfold retrieve
      rw [if_pos hle, if_neg hc]
    rw [hret, if_neg hc]
    simp [hbad, retrieve_all]

theorem c8_witness :
    Inv (Buffer.mk 8 10 (List.replicate 8 0 ++ [255, 66])) ∧ (0 : Nat) < 1 ∧
    1 ≤ readable_bytes (Buffer.mk 8 10 (List.replicate 8 0 ++ [255, 66])) ∧
    isValidUtf8 (((Buffer.mk 8 10 (List.replicate 8 0 ++ [255, 66])).data.drop
      (Buffer.mk 8 10 (List.replicate 8 0 ++ [255, 66])).read_index).take 1) = false ∧
    ((retrieve_as_string (Buffer.mk 8 10 (List.replicate 8 0 ++ [255, 66])) 1).1 = none ∧
    (retrieve_as_string (Buffer.mk 8 10 (List.replicate 8 0 ++ [255, 66])) 1).2.data =
      (Buffer.mk 8 10 (List.replicate 8 0 ++ [255, 66])).data ∧
    (retrieve_as_string (Buffer.mk 8 10 (List.replicate 8 0 ++ [255, 66])) 1).2.read_index =
      (if 1 < readable_bytes (Buffer.mk 8 10 (List.replicate 8 0 ++ [255, 66])) then
        (Buffer.mk 8 10 (List.replicate 8 0 ++ [255, 66])).read_index + 1 else PREPEND)) :=
  ⟨by decide, by decide, by decide, by decide,
    c8_decode_failure (Buffer.mk 8 10 (List.replicate 8 0 ++ [255, 66])) 1
      (by decide) (by decide) (by decide) (by decide)⟩

/-! ## Claim C3 -/

/-- The compaction branch of `make_space` through `ensure_writable_bytes`:
when growth is not needed (`PREPEND + n <= writable + prependable`) but room
is (`writable < n`), the buffer is compacted in place. -/
theorem ensure_compact (b : Buffer) (n : Nat) (hInv : Inv b)
    (h1 : writable_bytes b < n)
    (h2 : PREPEND + n ≤ writable_bytes b + prependable_bytes b)
    (hrd : b.read_index < b.data.length) :
    ensure_writable_bytes b n = some (compacted b) := by
  obtain ⟨hi1, hi2⟩ := hInv
  have e1 : writable_bytes b = b.data.length - b.write_index := rfl
  have e2 : prependable_bytes b = b.read_index := rfl
  have e3 : readable_bytes b = b.write_index - b.read_index := rfl
  have ep : PREPEND = 8 := rfl
  have hp : PREPEND < b.read_index := by omega
  unfold ensure_writable_bytes make_space
  rw [if_pos h1, if_neg (by omega), if_pos hp, if_pos ⟨hrd, by omega⟩,
    if_pos (show readable_bytes b = readable_bytes (compacted b) by
      show readable_bytes b = PREPEND + readable_bytes b - PREPEND
      omega),
    Option.some_bind, if_pos]
  show n ≤ (compacted b).data.length - (PREPEND + readable_bytes b)
  rw [compacted_data_length b ⟨hi1, hi2⟩ (by omega)]
  omega

/-- Reading the compacted buffer back from offset `PREPEND` recovers the
original readable content. -/
theorem compacted_slice (b : Buffer) (hInv : Inv b)
    (hfit : PREPEND + readable_bytes b ≤ b.data.length) :
    ((compacted b).data.drop PREPEND).take (readable_bytes b) = readableSlice b := by
  have hs := readSnapshot_length b hInv
  have key := drop_take_setRange b.data
    ((b.data.drop b.read_index).take (readable_bytes b)) PREPEND PREPEND
    (le_refl _) (by rw [hs]; exact hfit)
  rw [hs] at key
  show ((listSetRange b.data PREPEND
    ((b.data.drop b.read_index).take (readable_bytes b))).drop PREPEND).take
      (readable_bytes b) = readableSlice b
  simpa [readableSlice] using key

/-- C3 (amended): for every buffer with `prependable_bytes() > PREPEND` whose
`read_index` is below the storage length, an append of `n` bytes with
`1 <= n <= writable_bytes() + (prependable_bytes() - PREPEND)` does not change
the storage length (no reallocation): afterwards the readable content equals
the old readable content followed by the appended bytes, and `read_index ==
PREPEND` whenever compaction occurred (`writable_bytes() < n`).  The two extra
conditions are forced: `n = 0` aborts on `&bytes[0]`, and `read_index ==
storage.len()` (only possible when the buffer is completely full and fully
unread-free) makes the compaction memmove index out of bounds. -/
theorem c3_compaction_append (b : Buffer) (l : List Nat) (hInv : Inv b)
    (hp : PREPEND < prependable_bytes b) (hrd : b.read_index < b.data.length)
    (hl : l ≠ [])
    (hn : l.length ≤ writable_bytes b + (prependable_bytes b - PREPEND)) :
    ∃ b1, append_bytes b l = some b1 ∧
      b1.data.length = b.data.length ∧
      readableSlice b1 = readableSlice b ++ l ∧
      (writable_bytes b < l.length → b1.read_index = PREPEND) := by
  obtain ⟨hi1, hi2⟩ := hInv
  have e1 : writable_bytes b = b.data.length - b.write_index := rfl
  have e2 : prependable_bytes b = b.read_index := rfl
  have e3 : readable_bytes b = b.write_index - b.read_index := rfl
  have ep : PREPEND = 8 := rfl
  have hk : 0 < l.length := List.length_pos.mpr hl
  by_cases hfits : l.length ≤ writable_bytes b
  · have hwb : b.write_index + l.length ≤ b.data.length := by omega
    refine ⟨Buffer.mk b.read_index (b.write_index + l.length)
      (listSetRange b.data b.write_index l), ?_, ?_, ?_, ?_⟩
    · exact append_bytes_of_ensure b l b (ensure_noop b l.length hfits) hl ⟨hi1, hi2⟩ hfits
    · exact listSetRange_length _ _ _ hwb
    · show ((listSetRange b.data b.write_index l).drop b.read_index).take
        (b.write_index + l.length - b.read_index) = readableSlice b ++ l
      rw [drop_take_setRange b.data l b.write_index b.read_index hi1 hwb]
      rfl
    · intro hcon
      omega
  · have h2 : PREPEND + l.length ≤ writable_bytes b + prependable_bytes b := by omega
    have hens := ensure_compact b l.length ⟨hi1, hi2⟩ (by omega) h2 hrd
    have hfitc : PREPEND + readable_bytes b ≤ b.data.length := by omega
    have hdlenc : (compacted b).data.length = b.data.length :=
      compacted_data_length b ⟨hi1, hi2⟩ hfitc
    have hInvc : Inv (compacted b) := by
      refine ⟨show PREPEND ≤ PREPEND + readable_bytes b by omega, ?_⟩
      show PREPEND + readable_bytes b ≤ (compacted b).data.length
      rw [hdlenc]
      omega
    have hwac : l.length ≤ writable_bytes (compacted b) := by
      show l.length ≤ (compacted b).data.length - (PREPEND + readable_bytes b)
      rw [hdlenc]
      omega
    refine ⟨_, append_bytes_of_ensure b l (compacted b) hens hl hInvc hwac,
      ?_, ?_, fun hcon => rfl⟩
    · show (listSetRange (compacted b).data (PREPEND + readable_bytes b) l).length
        = b.data.length
      rw [listSetRange_length _ _ _ (by rw [hdlenc]; omega), hdlenc]
    · show ((listSetRange (compacted b).data (PREPEND + readable_bytes b) l).drop
        PREPEND).take (PREPEND + readable_bytes b + l.length - PREPEND) =
          readableSlice b ++ l
      rw [drop_take_setRange (compacted b).data l (PREPEND + readable_bytes b) PREPEND
        (by omega) (by rw [hdlenc]; omega), Nat.add_sub_cancel_left,
        compacted_slice b ⟨hi1, hi2⟩ hfitc]

/-- C3 counterexample: the claim as stated fails at two inputs that satisfy
its stated hypotheses.  (1) `Buffer { read_index: 16, write_index: 16, 16
bytes }` has `prependable_bytes() = 16 > PREPEND` and `n = 1 <=
writable_bytes() + (prependable_bytes() - PREPEND) = 8`, yet `append_bytes`
panics (the compaction memmove indexes `data[16]` out of bounds), so no state
with the claimed readable content exists afterwards.  (2) an empty append
(`n = 0`) on a buffer with `prependable_bytes() > PREPEND` panics on
`&bytes[0]`. -/
theorem c3_counterexample :
    (PREPEND < prependable_bytes (Buffer.mk 16 16 (List.replicate 16 0)) ∧
      1 ≤ writable_bytes (Buffer.mk 16 16 (List.replicate 16 0)) +
        (prependable_bytes (Buffer.mk 16 16 (List.replicate 16 0)) - PREPEND) ∧
      append_bytes (Buffer.mk 16 16 (List.replicate 16 0)) [7] = none) ∧
    (PREPEND < prependable_bytes (Buffer.mk 10 12 (List.replicate 16 0)) ∧
      append_bytes (Buffer.mk 10 12 (List.replicate 16 0)) [] = none) := by
  refine ⟨⟨by decide, by decide, by decide⟩, by decide, by decide⟩

theorem c3_witness :
    Inv (Buffer.mk 12 14 (List.replicate 12 0 ++ [1, 2, 3, 4])) ∧
    PREPEND < prependable_bytes (Buffer.mk 12 14 (List.replicate 12 0 ++ [1, 2, 3, 4])) ∧
    (Buffer.mk 12 14 (List.replicate 12 0 ++ [1, 2, 3, 4])).read_index <
      (Buffer.mk 12 14 (List.replicate 12 0 ++ [1, 2, 3, 4])).data.length ∧
    ([5, 6, 7] : List Nat) ≠ [] ∧
    ([5, 6, 7] : List Nat).length ≤
      writable_bytes (Buffer.mk 12 14 (List.replicate 12 0 ++ [1, 2, 3, 4])) +
      (prependable_bytes (Buffer.mk 12 14 (List.replicate 12 0 ++ [1, 2, 3, 4])) - PREPEND) ∧
    ∃ b1, append_bytes (Buffer.mk 12 14 (List.replicate 12 0 ++ [1, 2, 3, 4])) [5, 6, 7] =
        some b1 ∧
      b1.data.length = (Buffer.mk 12 14 (List.replicate 12 0 ++ [1, 2, 3, 4])).data.length ∧
      readableSlice b1 =
        readableSlice (Buffer.mk 12 14 (List.replicate 12 0 ++ [1, 2, 3, 4])) ++ [5, 6, 7] ∧
      (writable_bytes (Buffer.mk 12 14 (List.replicate 12 0 ++ [1, 2, 3, 4])) <
        ([5, 6, 7] : List Nat).length → b1.read_index = PREPEND) :=
  ⟨by decide, by decide, by decide, by decide, by decide,
    c3_compaction_append (Buffer.mk 12 14 (List.replicate 12 0 ++ [1, 2, 3, 4])) [5, 6, 7]
      (by decide) (by decide) (by decide) (by decide) (by decide)⟩

/-! ## Claim C9 -/

/-- Draining a buffer with nonempty valid-UTF-8 readable content through
`retrieve_all_as_string` returns exactly that content. -/
theorem retrieve_all_as_string_full (b : Buffer) (hInv : Inv b)
    (h0 : 0 < readable_bytes b) (hvalid : isValidUtf8 (readableSlice b) = true) :
    (retrieve_all_as_string b).1 = some (readableSlice b) := by
  obtain ⟨hi1, hi2⟩ := hInv
  have e3 : readable_bytes b = b.write_index - b.read_index := rfl
  have hrd : b.read_index < b.data.length := by omega
  have hret : retrieve b (readable_bytes b) = some (retrieve_all b) := by
    unfold retrieve
    rw [if_pos (le_refl _), if_neg (lt_irrefl _)]
  unfold retrieve_all_as_string retrieve_as_string
  rw [if_pos (le_refl _), if_neg (by omega), if_pos hrd, hret]
  unfold readableSlice at hvalid
  simp [hvalid]
  rfl

/-- `ensure_writable_bytes` on a fresh `Buffer::new(None)`: the storage ends
up at `PREPEND + max INITIAL r` and the cursors stay at `PREPEND`. -/
theorem ensure_new_spec (r : Nat) :
    ∃ o1, ensure_writable_bytes (Buffer.new none) r = some o1 ∧
      o1.read_index = PREPEND ∧ o1.write_index = PREPEND ∧
      o1.data.length = PREPEND + max INITIAL r := by
  by_cases h : r ≤ 1024
  · refine ⟨Buffer.new none, ensure_noop _ r ?_, rfl, rfl, ?_⟩
    · show r ≤ (List.replicate (PREPEND + (none : Option Nat).getD INITIAL) 0).length - PREPEND
      rw [List.length_replicate]
      show r ≤ 8 + 1024 - 8
      omega
    · show (List.replicate (PREPEND + (none : Option Nat).getD INITIAL) 0).length
        = PREPEND + max INITIAL r
      rw [List.length_replicate]
      show 8 + 1024 = 8 + max 1024 r
      omega
  · have hwn : writable_bytes (Buffer.new none) = 1024 := rfl
    have hpn : prependable_bytes (Buffer.new none) = 8 := rfl
    have hep : PREPEND = 8 := rfl
    refine ⟨_, ensure_growth (Buffer.new none) r (by omega) (by omega), rfl, rfl, ?_⟩
    show (listResize (Buffer.new none).data ((Buffer.new none).write_index + r) 0).length
      = PREPEND + max INITIAL r
    rw [listResize_length]
    show 8 + r = 8 + max 1024 r
    omega

/-- C9 (amended): for every buffer with nonempty, UTF-8-valid readable
content and every `extra_reserve`, `shrink(extra_reserve)` leaves the buffer
holding the same readable content, with cursors at `PREPEND` and
`PREPEND + readable_bytes()`.  However the replacement buffer is built from
`Buffer::new(None)` and only ever grown, so its storage length is
`PREPEND + max(INITIAL, readable + extra_reserve)` - not
`PREPEND + readable + extra_reserve` - and `writable_bytes()` ends at
`max(INITIAL, readable + extra_reserve) - readable`, not `extra_reserve`;
the storage is never sized to exactly fit when the content plus reserve is
below the default 1024 bytes. -/
theorem c9_shrink_spec (b : Buffer) (reserve : Nat) (hInv : Inv b)
    (h0 : 0 < readable_bytes b) (hvalid : isValidUtf8 (readableSlice b) = true) :
    ∃ b1, shrink b reserve = some b1 ∧
      readableSlice b1 = readableSlice b ∧
      b1.read_index = PREPEND ∧
      b1.write_index = PREPEND + readable_bytes b ∧
      b1.data.length = PREPEND + max INITIAL (readable_bytes b + reserve) ∧
      writable_bytes b1 = max INITIAL (readable_bytes b + reserve) - readable_bytes b := by
  obtain ⟨o1, ho, ho1, ho2, ho3⟩ := ensure_new_spec (readable_bytes b + reserve)
  have hlenS : (readableSlice b).length = readable_bytes b := readSnapshot_length b hInv
  have hsne : readableSlice b ≠ [] := by
    intro hc
    rw [hc] at hlenS
    simp at hlenS
    omega
  have hInvO : Inv o1 := by
    refine ⟨?_, ?_⟩
    · rw [ho1, ho2]
    · rw [ho2, ho3]
      omega
  have hro : readable_bytes o1 = 0 := by
    unfold readable_bytes
    rw [ho1, ho2]
    omega
  obtain ⟨d, happd, hsliced, hdge, hdlen⟩ := append_drained o1 (readableSlice b) hInvO hro ho1 hsne
  rw [ho3] at hdlen
  refine ⟨Buffer.mk PREPEND (PREPEND + (readableSlice b).length) d, ?_, ?_, rfl, ?_, ?_, ?_⟩
  · unfold shrink
    rw [ho, Option.some_bind, retrieve_all_as_string_full b hInv h0 hvalid,
      Option.some_bind]
    exact happd
  · show (d.drop PREPEND).take (PREPEND + (readableSlice b).length - PREPEND) = readableSlice b
    rw [Nat.add_sub_cancel_left]
    exact hsliced
  · rw [hlenS]
  · show d.length = PREPEND + max INITIAL (readable_bytes b + reserve)
    rw [hlenS] at hdlen
    omega
  · show d.length - (PREPEND + (readableSlice b).length)
      = max INITIAL (readable_bytes b + reserve) - readable_bytes b
    rw [hlenS] at hdlen ⊢
    omega

/-- C9 counterexample: a buffer holding the 4 readable bytes `"abcd"`;
`shrink(0)` produces a buffer whose storage length is `1032`
(= `PREPEND + INITIAL`, from `Buffer::new(None)`), not the claimed
`PREPEND + readable_bytes() + 0 = 12`, and whose `writable_bytes()` is `1020`,
not the claimed `extra_reserve = 0`.  Moreover, on a buffer whose readable
content is the invalid-UTF-8 byte `0xFF`, `shrink(0)` panics outright
(`retrieve_all_as_string` unwraps a failed decode). -/
theorem c9_counterexample :
    ((shrink (Buffer.mk 8 12 (List.replicate 8 0 ++ ([97, 98, 99, 100] ++
        List.replicate 20 0))) 0).map (fun b1 => b1.data.length) = some 1032 ∧
      (1032 : Nat) ≠ PREPEND + readable_bytes (Buffer.mk 8 12 (List.replicate 8 0 ++
        ([97, 98, 99, 100] ++ List.replicate 20 0))) + 0 ∧
      ((shrink (Buffer.mk 8 12 (List.replicate 8 0 ++ ([97, 98, 99, 100] ++
        List.replicate 20 0))) 0).map (fun b1 => writable_bytes b1) = some 1020 ∧
      (1020 : Nat) ≠ 0)) ∧
    shrink (Buffer.mk 8 9 (List.replicate 8 0 ++ [255])) 0 = none := by
  refine ⟨⟨by decide, by decide, by decide, by decide⟩, by decide⟩

theorem c9_witness :
    Inv (Buffer.mk 8 10 (List.replicate 8 0 ++ [104, 105])) ∧
    0 < readable_bytes (Buffer.mk 8 10 (List.replicate 8 0 ++ [104, 105])) ∧
    isValidUtf8 (readableSlice (Buffer.mk 8 10 (List.replicate 8 0 ++ [104, 105]))) = true ∧
    ∃ b1, shrink (Buffer.mk 8 10 (List.replicate 8 0 ++ [104, 105])) 5 = some b1 ∧
      readableSlice b1 = readableSlice (Buffer.mk 8 10 (List.replicate 8 0 ++ [104, 105])) ∧
      b1.read_index = PREPEND ∧
      b1.write_index = PREPEND +
        readable_bytes (Buffer.mk 8 10 (List.replicate 8 0 ++ [104, 105])) ∧
      b1.data.length = PREPEND + max INITIAL
        (readable_bytes (Buffer.mk 8 10 (List.replicate 8 0 ++ [104, 105])) + 5) ∧
      writable_bytes b1 = max INITIAL
        (readable_bytes (Buffer.mk 8 10 (List.replicate 8 0 ++ [104, 105])) + 5) -
        readable_bytes (Buffer.mk 8 10 (List.replicate 8 0 ++ [104, 105])) :=
  ⟨by decide, by decide, by decide,
    c9_shrink_spec (Buffer.mk 8 10 (List.replicate 8 0 ++ [104, 105])) 5
      (by decide) (by decide) (by decide)⟩

end ByteBuffer
